import Mathlib

/-!
Verification of the Throwlytics statistical benchmarking core
(`src/app/page.tsx`) against its natural-language specification.

The TypeScript source is shallowly embedded: JavaScript numbers are
modelled as rationals (`ℚ`), `undefined` as `Option.none`, and external
transcendental float routines (`Math.sqrt`, the Box-Muller normal
sampler built on `Math.log`/`Math.cos`) are abstracted as function
parameters.  `Array.prototype.sort` with a numeric comparator is
modelled by the stable `List.insertionSort`, whose output (the sorted
stable permutation) is the unique list the JavaScript sort contract
guarantees.  Presentation-only `detail` strings (which interpolate
`toFixed` float formatting) are omitted from the `Issue` record; all
fields that the diagnosis logic branches on are kept.
-/

namespace Throwlytics

/-- Embeds `mean` (page.tsx line 150): `arr.length ? arr.reduce((a,b)=>a+b,0)/arr.length : undefined`. -/
def mean (arr : List ℚ) : Option ℚ :=
  if arr.length = 0 then none
  else some (arr.foldl (· + ·) 0 / (arr.length : ℚ))

/-- Embeds `sd` (page.tsx lines 152-157), the sample standard deviation.
`Math.sqrt` is an external float routine, abstracted as the parameter
`sqrt`; the `mean(arr)!` non-null assertion is modelled by `Option.getD 0`
(in the taken branch the mean is always present). -/
def sd (sqrt : ℚ → ℚ) (arr : List ℚ) : Option ℚ :=
  if arr.length < 2 then none
  else
    let m := (mean arr).getD 0
    let v := (arr.foldl (fun acc x => acc + (x - m) ^ 2) 0) / ((arr.length : ℚ) - 1)
    some (sqrt v)

/-- Embeds `clamp` (page.tsx lines 183-185): `Math.max(lo, Math.min(hi, x))`. -/
def clamp (x lo hi : ℚ) : ℚ := max lo (min hi x)

/-- The closed `Metric` enumeration (page.tsx line 10). -/
inductive Metric where
  | wobble | nose | spin | power
deriving DecidableEq, Repr

/-- The `Band` union type (page.tsx line 52). -/
inductive Band where
  | Beginner | Intermediate | Advanced
deriving DecidableEq, Repr

/-- Result record of `bandForMetric` (page.tsx line 191). -/
structure BandResult where
  band : Band
  note : String
  score01 : ℚ
deriving DecidableEq, Repr

/-- Embeds `bandForMetric` (page.tsx lines 191-217): the pure threshold
table mapping one metric average (or absence) to a skill band.  The
source tests `value === undefined` first, for every metric; then one
branch per metric. -/
def bandForMetric : Metric → Option ℚ → BandResult
  | _, none => ⟨Band.Beginner, "No data", 0⟩
  | Metric.wobble, some value =>
    if value < 3 then ⟨Band.Advanced, "Very clean release", 0.9⟩
    else if value < 4.5 then ⟨Band.Intermediate, "Some OAT; manageable", 0.6⟩
    else ⟨Band.Beginner, "High OAT/wobble", 0.25⟩
  | Metric.nose, some value =>
    if 1 ≤ value ∧ value ≤ 3 then ⟨Band.Advanced, "Driver-friendly nose", 0.9⟩
    else if 3 < value ∧ value ≤ 5 then ⟨Band.Intermediate, "Slightly nose-up", 0.55⟩
    else if 5 < value then ⟨Band.Beginner, "Nose-up (distance leak)", 0.2⟩
    else if |value| ≤ 1 then ⟨Band.Intermediate, "Near neutral", 0.6⟩
    else ⟨Band.Intermediate, "Slightly nose-down/neutral", 0.65⟩
  | Metric.spin, some value =>
    if 1100 ≤ value then ⟨Band.Advanced, "Elite spin", 0.9⟩
    else if 950 ≤ value then ⟨Band.Intermediate, "Solid spin", 0.65⟩
    else ⟨Band.Beginner, "Low spin (timing/clamp)", 0.3⟩
  | Metric.power, some value =>
    if 60 ≤ value then ⟨Band.Advanced, "Elite speed", 0.9⟩
    else if 52 ≤ value then ⟨Band.Intermediate, "Strong speed", 0.65⟩
    else ⟨Band.Beginner, "Developing speed", 0.35⟩

/-- The `Issue` record (page.tsx lines 54-62).  The `detail` display
string (interpolated float formatting) is presentation-only and omitted;
every field the diagnosis logic reads or branches on is kept. -/
structure Issue where
  metric : Metric
  priority : ℤ
  value : Option ℚ
  unitText : String
  goalText : String
  headline : String
deriving DecidableEq, Repr

/-- The four optional session averages consumed by `buildIssues`
(page.tsx lines 223-228). -/
structure DiagnosisInput where
  avgSpeed : Option ℚ
  avgSpin : Option ℚ
  avgNose : Option ℚ
  avgWobble : Option ℚ

/-- Embeds `issues.sort((a, b) => b.priority - a.priority)` (page.tsx
line 301): a stable sort placing higher priorities first. -/
def sortIssues (l : List Issue) : List Issue :=
  l.insertionSort (fun a b => b.priority ≤ a.priority)

/-- The `if ((wobble ?? 0) > 4) ... else if ((wobble ?? 0) > 3) ...`
rule of `buildIssues` (page.tsx lines 235-257): the list of issues the
wobble rule pushes.  `(x ?? 0)` is `Option.getD x 0`. -/
def wobbleIssues (wobble : Option ℚ) : List Issue :=
  if wobble.getD 0 > 4 then
    [{ metric := Metric.wobble, priority := 100, value := wobble, unitText := "°",
       goalText := "< 3.0°", headline := "Wobble is costing you clean flight" }]
  else if wobble.getD 0 > 3 then
    [{ metric := Metric.wobble, priority := 60, value := wobble, unitText := "°",
       goalText := "< 3.0°", headline := "Some wobble present" }]
  else []

/-- The `if ((nose ?? 0) > 4)` rule of `buildIssues` (page.tsx lines
259-271). -/
def noseIssues (nose : Option ℚ) : List Issue :=
  if nose.getD 0 > 4 then
    [{ metric := Metric.nose, priority := 90, value := nose, unitText := "°",
       goalText := "~ +1° to +3°", headline := "Nose angle is too high (nose-up)" }]
  else []

/-- The `if ((spin ?? 0) > 0 && (spin ?? 0) < 900)` rule of
`buildIssues` (page.tsx lines 273-285). -/
def spinIssues (spin : Option ℚ) : List Issue :=
  if spin.getD 0 > 0 ∧ spin.getD 0 < 900 then
    [{ metric := Metric.spin, priority := 70, value := spin, unitText := "rpm",
       goalText := "≥ 950 rpm", headline := "Spin is on the low side" }]
  else []

/-- The `if ((speed ?? 0) > 0 && (speed ?? 0) < 50)` rule of
`buildIssues` (page.tsx lines 287-299). -/
def speedIssues (speed : Option ℚ) : List Issue :=
  if speed.getD 0 > 0 ∧ speed.getD 0 < 50 then
    [{ metric := Metric.power, priority := 40, value := speed, unitText := "mph",
       goalText := "≥ 52 mph", headline := "Speed (power) has room to grow" }]
  else []

/-- Embeds `buildIssues` (page.tsx lines 223-302).  Each sequential
`issues.push` guarded by a threshold test becomes one conditional
singleton list (the four rule functions above); the concatenation
preserves the push order, and the final stable descending sort is
`sortIssues`. -/
def buildIssues (stats : DiagnosisInput) : List Issue :=
  sortIssues (wobbleIssues stats.avgWobble ++ noseIssues stats.avgNose ++
    spinIssues stats.avgSpin ++ speedIssues stats.avgSpeed)

/-- Embeds the binary-search `while (lo < hi)` loop inside `percentileOf`
(page.tsx lines 357-363).  `(lo + hi) >> 1` is natural division by 2 and
`sortedAsc[mid]` is `List.getD` (the probe index is always in bounds on
reachable states).  The loop is given `fuel` to stay structural; each
iteration shrinks `hi - lo` by at least one, so any `fuel ≥ hi - lo`
reproduces the loop exactly. -/
def upperBoundGo (arr : List ℚ) (value : ℚ) : ℕ → ℕ → ℕ → ℕ
  | 0, lo, _ => lo
  | fuel + 1, lo, hi =>
    if lo < hi then
      let mid := (lo + hi) / 2
      if arr.getD mid 0 ≤ value then upperBoundGo arr value fuel (mid + 1) hi
      else upperBoundGo arr value fuel lo mid
    else lo

/-- JavaScript `Math.round`: `⌊x + 1/2⌋` (round half up). -/
def jsRound (x : ℚ) : ℤ := ⌊x + 1 / 2⌋

/-- Embeds `percentileOf` (page.tsx lines 355-367): binary search for the
count of population entries `≤ value`, converted to a fraction and
mapped to a rounded percentile according to the polarity flag.
`!sortedAsc.length` is the emptiness test. -/
def percentileOf (value : ℚ) (sortedAsc : List ℚ) (higherIsBetter : Bool) : Option ℤ :=
  if sortedAsc.length = 0 then none
  else
    let lo := upperBoundGo sortedAsc value sortedAsc.length 0 sortedAsc.length
    let frac : ℚ := (lo : ℚ) / (sortedAsc.length : ℚ)
    let p := if higherIsBetter then frac else 1 - frac
    some (jsRound (p * 100))

/-- Result record of `computeHistogram` (page.tsx lines 373-384),
mirroring its `{ counts, min, max }` return shape. -/
structure HistResult where
  counts : List ℕ
  min : ℚ
  max : ℚ
deriving DecidableEq, Repr

/-- Models `counts[idx]++`: increment the entry at position `idx`
(reachable indices are always in bounds). -/
def bump : List ℕ → ℕ → List ℕ
  | [], _ => []
  | c :: cs, 0 => (c + 1) :: cs
  | c :: cs, n + 1 => c :: bump cs n

/-- Embeds `computeHistogram` (page.tsx lines 373-384): each value is
linearly mapped into `[0,1]`, scaled by the bin count, floored, clamped
into `[0, bins-1]`, and the corresponding bucket is incremented; a
non-positive span returns the all-zero counts. -/
def computeHistogram (values : List ℚ) (bins : ℕ) (mn mx : ℚ) : HistResult :=
  let counts := List.replicate bins 0
  let span := mx - mn
  if span ≤ 0 then ⟨counts, mn, mx⟩
  else
    ⟨values.foldl (fun cs v =>
        let t := (v - mn) / span
        let idx : ℤ := min ((bins : ℤ) - 1) (max 0 ⌊t * (bins : ℚ)⌋)
        bump cs idx.toNat) counts, mn, mx⟩

/-- The `GlobalStats` record (page.tsx lines 64-73): four parallel
population arrays plus their ascending-sorted copies. -/
structure GlobalStats where
  speed : List ℚ
  spin : List ℚ
  nose : List ℚ
  wobble : List ℚ
  speedSorted : List ℚ
  spinSorted : List ℚ
  noseSorted : List ℚ
  wobbleSorted : List ℚ

/-- Embeds the sampling loop of `generateSyntheticGlobalStats`
(page.tsx lines 333-345).  `randNormal` (Box-Muller over `Math.log` /
`Math.cos`, transcendental float math) is abstracted as the stateful
parameter `normal`; draws occur in exactly the source order (skill, then
one fresh noise draw per metric), and each metric uses the already
computed values of the same sample (`wob` feeds `nos` and `spn`, `spd`
feeds `spn`). -/
def genLoop {S : Type} (normal : S → ℚ × S) : ℕ → S → List ℚ × List ℚ × List ℚ × List ℚ
  | 0, _ => ([], [], [], [])
  | n + 1, s0 =>
    let (skill, s1) := normal s0
    let (z1, s2) := normal s1
    let spd := clamp (47 + 4.2 * skill + 3.8 * z1) 25 68
    let (z2, s3) := normal s2
    let wob := clamp (4.3 - 0.9 * skill + 0.9 * |z2|) 0.8 11.0
    let (z3, s4) := normal s3
    let nos := clamp (3.0 - 0.4 * skill + 0.55 * (wob - 3.5) + 1.8 * z3) (-6) 14
    let (z4, s5) := normal s4
    let spn := clamp (860 + 10.5 * (spd - 45) + 70 * skill - 20 * (wob - 3.5) + 85 * z4) 350 1250
    let (ss, ws, ns, sps) := genLoop normal n s5
    (spd :: ss, wob :: ws, nos :: ns, spn :: sps)

/-- Embeds `generateSyntheticGlobalStats` (page.tsx lines 325-353): run
the sampling loop, then produce the four ascending-sorted copies
(`[...arr].sort((a, b) => a - b)`, modelled by the stable ascending
`List.insertionSort`). -/
def generateSyntheticGlobalStats {S : Type} (normal : S → ℚ × S) (nSessions : ℕ) (s0 : S) :
    GlobalStats :=
  let four := genLoop normal nSessions s0
  { speed := four.1, wobble := four.2.1, nose := four.2.2.1, spin := four.2.2.2
    speedSorted := four.1.insertionSort (· ≤ ·)
    wobbleSorted := four.2.1.insertionSort (· ≤ ·)
    noseSorted := four.2.2.1.insertionSort (· ≤ ·)
    spinSorted := four.2.2.2.insertionSort (· ≤ ·) }

/-- Embeds `nosePercentileFromAvg` (page.tsx lines 424-429): distance of
every population nose value from the target +2, sorted ascending, then
the general percentile of the observed distance with lower-is-better. -/
def nosePercentileFromAvg (avgNose : ℚ) (g : GlobalStats) : Option ℤ :=
  let target : ℚ := 2
  let distArr := (g.nose.map (fun n => |n - target|)).insertionSort (· ≤ ·)
  let userDist := |avgNose - target|
  percentileOf userDist distArr false

/-- Transcription of the specification sentence (§4.4) describing the
nose-metric percentile: build the array of absolute distances of every
population value from the fixed target +2, sort it ascending, take the
absolute distance of the observed average from the same target, and call
the general percentile function with `higher_is_better = false`. -/
def noseDistancePercentileSpec (avgNose : ℚ) (g : GlobalStats) : Option ℤ :=
  percentileOf |avgNose - 2| ((g.nose.map (fun n => |n - 2|)).insertionSort (· ≤ ·)) false

/-- The per-throw record (page.tsx lines 39-50); all measurement fields
are independently optional. -/
structure Throw where
  idx : ℕ
  time : Option String := none
  speed : Option ℚ := none
  spin : Option ℚ := none
  nose : Option ℚ := none
  wobble : Option ℚ := none
  launch : Option ℚ := none
  hyzer : Option ℚ := none
  primaryThrowType : Option String := none
  throwType : Option String := none

/-- Embeds `cleanThrows` (page.tsx line 725): keep throws carrying speed
or spin data. -/
def cleanThrows (throws : List Throw) : List Throw :=
  throws.filter (fun t => t.speed.isSome || t.spin.isSome)

/-- The derived session aggregate produced by the `stats` memo
(page.tsx lines 727-746). -/
structure SessionStats where
  count : ℕ
  avgSpeed : Option ℚ
  avgSpin : Option ℚ
  avgNose : Option ℚ
  avgWobble : Option ℚ
  sdSpeed : Option ℚ
  sdSpin : Option ℚ
  sdNose : Option ℚ
  sdWobble : Option ℚ
  bestSpeed : Option ℚ
  bestSpin : Option ℚ
deriving DecidableEq

/-- Embeds the `stats` memo (page.tsx lines 727-746): per-metric
projections out of `cleanThrows` (`.map(...).filter(isNumber)` is
`List.filterMap`), means, sample standard deviations (`sqrt`
abstracted as in `sd`), and best (max) speed/spin
(`speeds.length ? Math.max(...speeds) : undefined` is `List.max?`). -/
def sessionStats (sqrt : ℚ → ℚ) (throws : List Throw) : SessionStats :=
  let clean := cleanThrows throws
  let speeds := clean.filterMap Throw.speed
  let spins := clean.filterMap Throw.spin
  let noses := clean.filterMap Throw.nose
  let wobbles := clean.filterMap Throw.wobble
  { count := clean.length
    avgSpeed := mean speeds
    avgSpin := mean spins
    avgNose := mean noses
    avgWobble := mean wobbles
    sdSpeed := sd sqrt speeds
    sdSpin := sd sqrt spins
    sdNose := sd sqrt noses
    sdWobble := sd sqrt wobbles
    bestSpeed := speeds.max?
    bestSpin := spins.max? }

/-! ### Helper lemmas -/

theorem mem_sortIssues {i : Issue} {l : List Issue} : i ∈ sortIssues l ↔ i ∈ l :=
  (List.perm_insertionSort _ l).mem_iff

theorem metric_of_mem_wobbleIssues {i : Issue} {x : Option ℚ} (h : i ∈ wobbleIssues x) :
    i.metric = Metric.wobble := by
  unfold wobbleIssues at h
  split at h
  · simp only [List.mem_singleton] at h; subst h; rfl
  · split at h
    · simp only [List.mem_singleton] at h; subst h; rfl
    · simp at h

theorem metric_of_mem_noseIssues {i : Issue} {x : Option ℚ} (h : i ∈ noseIssues x) :
    i.metric = Metric.nose := by
  unfold noseIssues at h
  split at h
  · simp only [List.mem_singleton] at h; subst h; rfl
  · simp at h

theorem metric_of_mem_spinIssues {i : Issue} {x : Option ℚ} (h : i ∈ spinIssues x) :
    i.metric = Metric.spin := by
  unfold spinIssues at h
  split at h
  · simp only [List.mem_singleton] at h; subst h; rfl
  · simp at h

theorem metric_of_mem_speedIssues {i : Issue} {x : Option ℚ} (h : i ∈ speedIssues x) :
    i.metric = Metric.power := by
  unfold speedIssues at h
  split at h
  · simp only [List.mem_singleton] at h; subst h; rfl
  · simp at h

theorem wobbleIssues_none : wobbleIssues none = [] := by decide

theorem noseIssues_none : noseIssues none = [] := by decide

theorem spinIssues_none : spinIssues none = [] := by decide

theorem speedIssues_none : speedIssues none = [] := by decide

/-! ### Claims -/

theorem bump_length (l : List ℕ) (i : ℕ) : (bump l i).length = l.length := by
  induction l generalizing i with
  | nil => rfl
  | cons c cs ih => cases i <;> simp [bump, ih]

theorem bump_sum (l : List ℕ) (i : ℕ) (h : i < l.length) : (bump l i).sum = l.sum + 1 := by
  induction l generalizing i with
  | nil => simp at h
  | cons c cs ih =>
    cases i with
    | zero => simp [bump]; omega
    | succ n =>
      have := ih n (by simpa using h)
      simp [bump, List.sum_cons, this]
      omega

theorem foldl_bump_sum (f : ℚ → ℕ) (n : ℕ) (hf : ∀ v, f v < n) :
    ∀ (vs : List ℚ) (l : List ℕ), l.length = n →
      (vs.foldl (fun cs v => bump cs (f v)) l).sum = l.sum + vs.length := by
  intro vs
  induction vs with
  | nil => intro l _; simp
  | cons v vs ih =>
    intro l hl
    rw [List.foldl_cons, ih (bump l (f v)) (by rw [bump_length, hl]),
      bump_sum l (f v) (by rw [hl]; exact hf v)]
    simp only [List.length_cons]
    omega

/-- Claim C6: for every value list, bin count at least 1, and range with
`max > min`, the histogram bucket counts of `computeHistogram` sum to
exactly the number of values — out-of-range values are clamped into the
edge bins, never dropped. -/
theorem computeHistogram_counts_sum (values : List ℚ) (bins : ℕ) (mn mx : ℚ)
    (hb : 1 ≤ bins) (hlt : mn < mx) :
    (computeHistogram values bins mn mx).counts.sum = values.length := by
  have hspan : ¬(mx - mn ≤ 0) := by linarith
  simp only [computeHistogram, if_neg hspan]
  have hf : ∀ v : ℚ,
      (min ((bins : ℤ) - 1) (max 0 ⌊(v - mn) / (mx - mn) * (bins : ℚ)⌋)).toNat < bins := by
    intro v
    have h1 : min ((bins : ℤ) - 1) (max 0 ⌊(v - mn) / (mx - mn) * (bins : ℚ)⌋) ≤ (bins : ℤ) - 1 :=
      min_le_left _ _
    have h2 : (0 : ℤ) ≤ min ((bins : ℤ) - 1) (max 0 ⌊(v - mn) / (mx - mn) * (bins : ℚ)⌋) :=
      le_min (by omega) (le_max_left 0 _)
    omega
  have := foldl_bump_sum
    (fun v => (min ((bins : ℤ) - 1) (max 0 ⌊(v - mn) / (mx - mn) * (bins : ℚ)⌋)).toNat)
    bins hf values (List.replicate bins 0) (by simp)
  simpa using this

/-- Witness for C6: five values (two of them outside the range [0,10])
over 4 bins sum to exactly 5. -/
theorem computeHistogram_counts_sum_witness :
    1 ≤ 4 ∧ (0 : ℚ) < 10 ∧
    (computeHistogram [1, 2, 3, 100, -5] 4 0 10).counts.sum =
      ([1, 2, 3, 100, -5] : List ℚ).length :=
  ⟨by decide, by norm_num,
   computeHistogram_counts_sum [1, 2, 3, 100, -5] 4 0 10 (by decide) (by norm_num)⟩

/-- Claim C8: the sample standard deviation `sd` returns absent
(`none`), not zero, for every array with fewer than two elements,
including the single-element array, whatever the square-root routine. -/
theorem sd_short_array_none (sqrt : ℚ → ℚ) (arr : List ℚ) (h : arr.length < 2) :
    sd sqrt arr = none := by
  simp [sd, h]

/-- Witness for C8: the single-element array `[5]` has fewer than two
elements and its standard deviation is absent. -/
theorem sd_short_array_none_witness :
    ([(5 : ℚ)].length < 2) ∧ sd id [(5 : ℚ)] = none :=
  ⟨by decide, sd_short_array_none id [(5 : ℚ)] (by decide)⟩

/-- Claim C9: a nose average matching none of the bands `[1,3]`,
`(3,5]`, `>5` falls through to the Intermediate fallbacks, in the
documented top-to-bottom order: score 0.6 with note "Near neutral" when
`|v| ≤ 1`, and otherwise (necessarily `v < -1`) score 0.65 with note
"Slightly nose-down/neutral". -/
theorem bandForMetric_nose_fallthrough (v : ℚ)
    (h1 : ¬(1 ≤ v ∧ v ≤ 3)) (h2 : ¬(3 < v ∧ v ≤ 5)) (h3 : ¬(5 < v)) :
    (bandForMetric Metric.nose (some v)).band = Band.Intermediate ∧
    ((|v| ≤ 1 ∧ bandForMetric Metric.nose (some v) =
        ⟨Band.Intermediate, "Near neutral", 0.6⟩) ∨
     (v < -1 ∧ bandForMetric Metric.nose (some v) =
        ⟨Band.Intermediate, "Slightly nose-down/neutral", 0.65⟩)) := by
  have hv : v < 1 := by
    by_contra hge
    push_neg at h3 hge
    exact h1 ⟨hge, by rcases not_and_or.mp h2 with h | h <;> push_neg at h <;> linarith⟩
  have hb : bandForMetric Metric.nose (some v) =
      if |v| ≤ 1 then (⟨Band.Intermediate, "Near neutral", 0.6⟩ : BandResult)
      else ⟨Band.Intermediate, "Slightly nose-down/neutral", 0.65⟩ := by
    simp only [bandForMetric]
    rw [if_neg h1, if_neg h2, if_neg h3]
  by_cases habs : |v| ≤ 1
  · rw [hb, if_pos habs]
    exact ⟨rfl, Or.inl ⟨habs, rfl⟩⟩
  · rw [hb, if_neg habs]
    have : v < -1 := by
      rcases not_and_or.mp (fun hc => habs (abs_le.mpr hc)) with h | h <;> push_neg at h
      · exact h
      · linarith
    exact ⟨rfl, Or.inr ⟨this, rfl⟩⟩

/-- Witness for C9: the nose average 0 matches none of the three bands
and classifies as Intermediate with score 0.6 (near neutral). -/
theorem bandForMetric_nose_fallthrough_witness :
    (¬((1 : ℚ) ≤ 0 ∧ (0 : ℚ) ≤ 3)) ∧ (¬((3 : ℚ) < 0 ∧ (0 : ℚ) ≤ 5)) ∧ (¬((5 : ℚ) < 0)) ∧
    ((bandForMetric Metric.nose (some 0)).band = Band.Intermediate ∧
     ((|(0 : ℚ)| ≤ 1 ∧ bandForMetric Metric.nose (some 0) =
         ⟨Band.Intermediate, "Near neutral", 0.6⟩) ∨
      ((0 : ℚ) < -1 ∧ bandForMetric Metric.nose (some 0) =
         ⟨Band.Intermediate, "Slightly nose-down/neutral", 0.65⟩))) :=
  ⟨by norm_num, by norm_num, by norm_num,
   bandForMetric_nose_fallthrough 0 (by norm_num) (by norm_num) (by norm_num)⟩

/-- Claim C3: `buildIssues` on the averages wobble 4.2, nose 4.5,
spin 800, speed 45 returns exactly four issues, in the exact order
wobble, nose, spin, power, with priorities 100, 90, 70, 40, the result
being sorted descending by priority. -/
theorem buildIssues_mixed_session :
    buildIssues ⟨some 45, some 800, some 4.5, some 4.2⟩ =
      [⟨Metric.wobble, 100, some 4.2, "°", "< 3.0°", "Wobble is costing you clean flight"⟩,
       ⟨Metric.nose, 90, some 4.5, "°", "~ +1° to +3°", "Nose angle is too high (nose-up)"⟩,
       ⟨Metric.spin, 70, some 800, "rpm", "≥ 950 rpm", "Spin is on the low side"⟩,
       ⟨Metric.power, 40, some 45, "mph", "≥ 52 mph", "Speed (power) has room to grow"⟩] ∧
    (buildIssues ⟨some 45, some 800, some 4.5, some 4.2⟩).map Issue.priority =
      [100, 90, 70, 40] ∧
    List.Chain' (fun a b => b ≤ a)
      ((buildIssues ⟨some 45, some 800, some 4.5, some 4.2⟩).map Issue.priority) := by
  have h1 : buildIssues ⟨some 45, some 800, some 4.5, some 4.2⟩ =
      [⟨Metric.wobble, 100, some 4.2, "°", "< 3.0°", "Wobble is costing you clean flight"⟩,
       ⟨Metric.nose, 90, some 4.5, "°", "~ +1° to +3°", "Nose angle is too high (nose-up)"⟩,
       ⟨Metric.spin, 70, some 800, "rpm", "≥ 950 rpm", "Spin is on the low side"⟩,
       ⟨Metric.power, 40, some 45, "mph", "≥ 52 mph", "Speed (power) has room to grow"⟩] := by
    norm_num [buildIssues, sortIssues, wobbleIssues, noseIssues, spinIssues, speedIssues,
      List.insertionSort, List.orderedInsert]
  exact ⟨h1, by rw [h1]; rfl, by rw [h1]; norm_num [List.chain'_cons, List.map]⟩

/-- Claim C4: an absent session average never fires the corresponding
diagnosis rule: if a metric's average is `none`, no issue tagged with
that metric appears in the output (and `buildIssues`, being a total
function, never throws). -/
theorem buildIssues_absent_average (s : DiagnosisInput) :
    (s.avgWobble = none → Metric.wobble ∉ (buildIssues s).map Issue.metric) ∧
    (s.avgNose = none → Metric.nose ∉ (buildIssues s).map Issue.metric) ∧
    (s.avgSpin = none → Metric.spin ∉ (buildIssues s).map Issue.metric) ∧
    (s.avgSpeed = none → Metric.power ∉ (buildIssues s).map Issue.metric) := by
  refine ⟨fun h hmem => ?_, fun h hmem => ?_, fun h hmem => ?_, fun h hmem => ?_⟩ <;>
  · obtain ⟨i, hi, hmet⟩ := List.mem_map.mp hmem
    rw [buildIssues, mem_sortIssues] at hi
    rw [h] at hi
    simp only [wobbleIssues_none, noseIssues_none, spinIssues_none, speedIssues_none,
      List.append_nil, List.nil_append, List.mem_append, or_assoc] at hi
    rcases hi with (hi | hi | hi) <;>
      first
        | exact absurd (metric_of_mem_wobbleIssues hi ▸ hmet) (by decide)
        | exact absurd (metric_of_mem_noseIssues hi ▸ hmet) (by decide)
        | exact absurd (metric_of_mem_spinIssues hi ▸ hmet) (by decide)
        | exact absurd (metric_of_mem_speedIssues hi ▸ hmet) (by decide)

/-- Witness for C4: with every average absent, no issue is tagged with
any of the four metrics. -/
theorem buildIssues_absent_average_witness :
    Metric.wobble ∉ (buildIssues ⟨none, none, none, none⟩).map Issue.metric ∧
    Metric.nose ∉ (buildIssues ⟨none, none, none, none⟩).map Issue.metric ∧
    Metric.spin ∉ (buildIssues ⟨none, none, none, none⟩).map Issue.metric ∧
    Metric.power ∉ (buildIssues ⟨none, none, none, none⟩).map Issue.metric :=
  ⟨(buildIssues_absent_average ⟨none, none, none, none⟩).1 rfl,
   (buildIssues_absent_average ⟨none, none, none, none⟩).2.1 rfl,
   (buildIssues_absent_average ⟨none, none, none, none⟩).2.2.1 rfl,
   (buildIssues_absent_average ⟨none, none, none, none⟩).2.2.2 rfl⟩

/-- Claim C5: the nose-metric percentile equals the specification's
recipe — map every population nose value to its absolute distance from
the fixed target +2, sort ascending, and take the general percentile of
the observed average's distance with `higher_is_better = false`. -/
theorem nosePercentileFromAvg_eq_spec (avgNose : ℚ) (g : GlobalStats) :
    nosePercentileFromAvg avgNose g = noseDistancePercentileSpec avgNose g := rfl

/-- Claim C7: for every sampler state, sampler, and sample count, each
of the four sorted population arrays of `generateSyntheticGlobalStats`
has the same length and the same multiset of values (is a permutation)
as its unsorted counterpart, and is non-decreasing. -/
theorem generateSyntheticGlobalStats_sorted_invariants {S : Type}
    (normal : S → ℚ × S) (n : ℕ) (s0 : S) :
    ((generateSyntheticGlobalStats normal n s0).speedSorted.Perm
        (generateSyntheticGlobalStats normal n s0).speed ∧
      (generateSyntheticGlobalStats normal n s0).speedSorted.length =
        (generateSyntheticGlobalStats normal n s0).speed.length ∧
      List.Sorted (· ≤ ·) (generateSyntheticGlobalStats normal n s0).speedSorted) ∧
    ((generateSyntheticGlobalStats normal n s0).spinSorted.Perm
        (generateSyntheticGlobalStats normal n s0).spin ∧
      (generateSyntheticGlobalStats normal n s0).spinSorted.length =
        (generateSyntheticGlobalStats normal n s0).spin.length ∧
      List.Sorted (· ≤ ·) (generateSyntheticGlobalStats normal n s0).spinSorted) ∧
    ((generateSyntheticGlobalStats normal n s0).noseSorted.Perm
        (generateSyntheticGlobalStats normal n s0).nose ∧
      (generateSyntheticGlobalStats normal n s0).noseSorted.length =
        (generateSyntheticGlobalStats normal n s0).nose.length ∧
      List.Sorted (· ≤ ·) (generateSyntheticGlobalStats normal n s0).noseSorted) ∧
    ((generateSyntheticGlobalStats normal n s0).wobbleSorted.Perm
        (generateSyntheticGlobalStats normal n s0).wobble ∧
      (generateSyntheticGlobalStats normal n s0).wobbleSorted.length =
        (generateSyntheticGlobalStats normal n s0).wobble.length ∧
      List.Sorted (· ≤ ·) (generateSyntheticGlobalStats normal n s0).wobbleSorted) := by
  simp only [generateSyntheticGlobalStats]
  refine ⟨⟨?_, ?_, ?_⟩, ⟨?_, ?_, ?_⟩, ⟨?_, ?_, ?_⟩, ⟨?_, ?_, ?_⟩⟩ <;>
    first
      | exact List.perm_insertionSort _ _
      | exact (List.perm_insertionSort _ _).length_eq
      | exact List.sorted_insertionSort _ _

/-- Claim C10: a throw carrying nose or wobble data but neither speed
nor spin is dropped by `cleanThrows` and therefore contributes to no
session statistic at all — usable-throw count, per-metric means,
standard deviations, and best values are identical with or without it. -/
theorem sessionStats_ignores_speedless_spinless (sqrt : ℚ → ℚ)
    (l1 l2 : List Throw) (t : Throw) (hsp : t.speed = none) (hspin : t.spin = none) :
    cleanThrows (l1 ++ t :: l2) = cleanThrows (l1 ++ l2) ∧
    sessionStats sqrt (l1 ++ t :: l2) = sessionStats sqrt (l1 ++ l2) := by
  have hc : cleanThrows (l1 ++ t :: l2) = cleanThrows (l1 ++ l2) := by
    simp [cleanThrows, List.filter_append, List.filter_cons, hsp, hspin]
  exact ⟨hc, by simp only [sessionStats, hc]⟩

theorem sorted_getD_le (arr : List ℚ) (hs : List.Sorted (· ≤ ·) arr) {i j : ℕ}
    (hij : i ≤ j) (hj : j < arr.length) : arr.getD i 0 ≤ arr.getD j 0 := by
  have hi : i < arr.length := Nat.lt_of_le_of_lt hij hj
  rw [List.getD_eq_getElem arr 0 hi, List.getD_eq_getElem arr 0 hj]
  rcases Nat.eq_or_lt_of_le hij with rfl | hlt
  · exact le_refl _
  · exact List.pairwise_iff_getElem.mp hs i j hi hj hlt

theorem upperBoundGo_spec (arr : List ℚ) (v : ℚ) (hs : List.Sorted (· ≤ ·) arr) :
    ∀ (fuel lo hi : ℕ), hi - lo ≤ fuel → lo ≤ hi → hi ≤ arr.length →
      (∀ j, j < lo → arr.getD j 0 ≤ v) →
      (∀ j, hi ≤ j → j < arr.length → v < arr.getD j 0) →
      lo ≤ upperBoundGo arr v fuel lo hi ∧
        upperBoundGo arr v fuel lo hi ≤ hi ∧
        (∀ j, j < upperBoundGo arr v fuel lo hi → arr.getD j 0 ≤ v) ∧
        (∀ j, upperBoundGo arr v fuel lo hi ≤ j → j < arr.length → v < arr.getD j 0) := by
  intro fuel
  induction fuel with
  | zero =>
    intro lo hi hfuel hlohi hhi hlow hhigh
    have heq : hi = lo := by omega
    subst heq
    exact ⟨le_refl _, le_refl _, hlow, hhigh⟩
  | succ n ih =>
    intro lo hi hfuel hlohi hhi hlow hhigh
    by_cases hlh : lo < hi
    · have hm1 : lo ≤ (lo + hi) / 2 := by omega
      have hm2 : (lo + hi) / 2 < hi := by omega
      simp only [upperBoundGo]
      rw [if_pos hlh]
      by_cases hcmp : arr.getD ((lo + hi) / 2) 0 ≤ v
      · rw [if_pos hcmp]
        obtain ⟨ha, hb, hc, hd⟩ := ih ((lo + hi) / 2 + 1) hi (by omega) (by omega) hhi
          (fun j hj =>
            le_trans (sorted_getD_le arr hs (i := j) (j := (lo + hi) / 2) (by omega) (by omega))
              hcmp)
          hhigh
        exact ⟨by omega, hb, hc, hd⟩
      · rw [if_neg hcmp]
        obtain ⟨ha, hb, hc, hd⟩ := ih lo ((lo + hi) / 2) (by omega) (by omega) (by omega) hlow
          (fun j hj hjlen =>
            lt_of_lt_of_le (lt_of_not_le hcmp) (sorted_getD_le arr hs hj hjlen))
        exact ⟨ha, by omega, hc, hd⟩
    · simp only [upperBoundGo]
      rw [if_neg hlh]
      exact ⟨le_refl _, hlohi, hlow, fun j hj hjlen => hhigh j (by omega) hjlen⟩

theorem upperBound_eq_countP (arr : List ℚ) (v : ℚ) (hs : List.Sorted (· ≤ ·) arr) :
    upperBoundGo arr v arr.length 0 arr.length = arr.countP (fun x => decide (x ≤ v)) := by
  obtain ⟨h0, hle, hbelow, habove⟩ :=
    upperBoundGo_spec arr v hs arr.length 0 arr.length (by omega) (by omega) (le_refl _)
      (fun j hj => absurd hj (Nat.not_lt_zero j)) (fun j hj hjlen => absurd hjlen (by omega))
  set r := upperBoundGo arr v arr.length 0 arr.length with hr
  have h1 : (arr.take r).countP (fun x => decide (x ≤ v)) = (arr.take r).length := by
    rw [List.countP_eq_length]
    intro a ha
    obtain ⟨k, hk, hak⟩ := List.mem_iff_getElem.mp ha
    have hkb : k < r ∧ k < arr.length := by rw [List.length_take] at hk; omega
    have hkl : k < arr.length := hkb.2
    have hav : a = arr[k] := by rw [← hak, List.getElem_take]
    have hv := hbelow k hkb.1
    rw [List.getD_eq_getElem arr 0 hkl] at hv
    simp only [decide_eq_true_eq]
    rw [hav]
    exact hv
  have h2 : (arr.drop r).countP (fun x => decide (x ≤ v)) = 0 := by
    rw [List.countP_eq_zero]
    intro a ha
    obtain ⟨k, hk, hak⟩ := List.mem_iff_getElem.mp ha
    have hkb : r + k < arr.length := by rw [List.length_drop] at hk; omega
    have hav : a = arr[r + k] := by rw [← hak, List.getElem_drop]
    have hv := habove (r + k) (by omega) hkb
    rw [List.getD_eq_getElem arr 0 hkb] at hv
    simp only [decide_eq_true_eq, not_le]
    rw [hav]
    exact hv
  have hsplit : arr.countP (fun x => decide (x ≤ v)) = r := by
    conv_lhs => rw [← List.take_append_drop r arr]
    rw [List.countP_append, h1, h2, List.length_take]
    omega
  omega

theorem percentileOf_eval (arr : List ℚ) (v : ℚ) (b : Bool) (hlen : arr.length ≠ 0) :
    percentileOf v arr b =
      some (jsRound ((if b then
          ((upperBoundGo arr v arr.length 0 arr.length : ℕ) : ℚ) / (arr.length : ℚ)
        else
          1 - ((upperBoundGo arr v arr.length 0 arr.length : ℕ) : ℚ) / (arr.length : ℚ)) *
        100)) := by
  rw [percentileOf, if_neg hlen]

theorem percentileOf_eval_true (arr : List ℚ) (v : ℚ) (hlen : arr.length ≠ 0) :
    percentileOf v arr true =
      some (jsRound (((upperBoundGo arr v arr.length 0 arr.length : ℕ) : ℚ) /
        (arr.length : ℚ) * 100)) := by
  rw [percentileOf_eval arr v true hlen]
  simp

theorem percentileOf_eval_false (arr : List ℚ) (v : ℚ) (hlen : arr.length ≠ 0) :
    percentileOf v arr false =
      some (jsRound ((1 - ((upperBoundGo arr v arr.length 0 arr.length : ℕ) : ℚ) /
        (arr.length : ℚ)) * 100)) := by
  rw [percentileOf_eval arr v false hlen]
  simp

theorem jsRound_intCast (z : ℤ) : jsRound (z : ℚ) = z := by
  rw [jsRound, Int.floor_eq_iff]
  constructor
  · linarith
  · linarith

theorem jsRound_zero : jsRound 0 = 0 := by
  simpa using jsRound_intCast 0

theorem jsRound_hundred : jsRound 100 = 100 := by
  simpa using jsRound_intCast 100

theorem jsRound_mono {x y : ℚ} (h : x ≤ y) : jsRound x ≤ jsRound y :=
  Int.floor_mono (by linarith)

/-- Counterexample for C1 as stated: with `higher_is_better = false` the
value 0, strictly below every entry of the population `[1]`, yields
percentile 100, not 0. -/
theorem percentileOf_below_all_lower_better_counterexample :
    percentileOf 0 [1] false = some 100 ∧ percentileOf 0 [1] false ≠ some 0 := by
  have hub : upperBoundGo [1] 0 1 0 1 = 0 := by decide
  have h : percentileOf 0 [1] false = some 100 := by
    rw [percentileOf_eval_false [1] 0 (by simp)]
    simp only [List.length_singleton] at hub ⊢
    rw [hub]
    norm_num [jsRound_hundred]
  exact ⟨h, by rw [h]; simp⟩

/-- Claim C1 (amended): for a non-empty ascending-sorted population, a
value strictly below all entries ranks at percentile 0 when
`higher_is_better = true` and at 100 when `false`; a value at or above
the maximum ranks at 100 when `true` and at 0 when `false`. -/
theorem percentileOf_extremes (arr : List ℚ) (v : ℚ)
    (hs : List.Sorted (· ≤ ·) arr) (hne : arr ≠ []) :
    ((∀ x ∈ arr, v < x) →
        percentileOf v arr true = some 0 ∧ percentileOf v arr false = some 100) ∧
    ((∀ x ∈ arr, x ≤ v) →
        percentileOf v arr true = some 100 ∧ percentileOf v arr false = some 0) := by
  have hlen : arr.length ≠ 0 := by simpa [List.length_eq_zero] using hne
  constructor
  · intro hbel
    have hub : upperBoundGo arr v arr.length 0 arr.length = 0 := by
      rw [upperBound_eq_countP arr v hs, List.countP_eq_zero]
      intro a ha
      simpa using not_le.mpr (hbel a ha)
    constructor
    · rw [percentileOf_eval_true arr v hlen, hub]
      norm_num [jsRound_zero]
    · rw [percentileOf_eval_false arr v hlen, hub]
      norm_num [jsRound_hundred]
  · intro habv
    have hub : upperBoundGo arr v arr.length 0 arr.length = arr.length := by
      rw [upperBound_eq_countP arr v hs, List.countP_eq_length]
      intro a ha
      simpa using habv a ha
    have hden : ((arr.length : ℕ) : ℚ) ≠ 0 := Nat.cast_ne_zero.mpr hlen
    constructor
    · rw [percentileOf_eval_true arr v hlen, hub, div_self hden]
      norm_num [jsRound_hundred]
    · rw [percentileOf_eval_false arr v hlen, hub, div_self hden]
      norm_num [jsRound_zero]

/-- Witness for C1 (amended): over the population `[1]`, the value 0
(strictly below all entries) and the value 5 (at/above the maximum)
produce the four stated extreme percentiles. -/
theorem percentileOf_extremes_witness :
    percentileOf 0 [1] true = some 0 ∧ percentileOf 0 [1] false = some 100 ∧
    percentileOf 5 [1] true = some 100 ∧ percentileOf 5 [1] false = some 0 := by
  have h1 := (percentileOf_extremes [1] 0 (by simp) (by simp)).1
    (by intro x hx; simp only [List.mem_singleton] at hx; rw [hx]; norm_num)
  have h2 := (percentileOf_extremes [1] 5 (by simp) (by simp)).2
    (by intro x hx; simp only [List.mem_singleton] at hx; rw [hx]; norm_num)
  exact ⟨h1.1, h1.2, h2.1, h2.2⟩

/-- Claim C2: over a fixed non-empty ascending-sorted population,
`percentileOf` is monotone in the observed value — non-decreasing when
`higher_is_better = true` and non-increasing when `false`. -/
theorem percentileOf_monotone (arr : List ℚ) (hs : List.Sorted (· ≤ ·) arr)
    (hne : arr ≠ []) (v1 v2 : ℚ) (h12 : v1 ≤ v2) :
    ∃ p1 p2 q1 q2 : ℤ,
      percentileOf v1 arr true = some p1 ∧ percentileOf v2 arr true = some p2 ∧ p1 ≤ p2 ∧
      percentileOf v1 arr false = some q1 ∧ percentileOf v2 arr false = some q2 ∧ q2 ≤ q1 := by
  have hlen : arr.length ≠ 0 := by simpa [List.length_eq_zero] using hne
  have hc : upperBoundGo arr v1 arr.length 0 arr.length ≤
      upperBoundGo arr v2 arr.length 0 arr.length := by
    rw [upperBound_eq_countP arr v1 hs, upperBound_eq_countP arr v2 hs]
    exact List.countP_mono_left
      (fun a _ ha => by simp only [decide_eq_true_eq] at ha ⊢; linarith)
  have hpos : (0 : ℚ) < (arr.length : ℚ) := by
    exact_mod_cast Nat.pos_of_ne_zero hlen
  have hfrac : ((upperBoundGo arr v1 arr.length 0 arr.length : ℕ) : ℚ) / (arr.length : ℚ) ≤
      ((upperBoundGo arr v2 arr.length 0 arr.length : ℕ) : ℚ) / (arr.length : ℚ) :=
    (div_le_div_iff_of_pos_right hpos).mpr (by exact_mod_cast hc)
  exact ⟨_, _, _, _,
    percentileOf_eval_true arr v1 hlen, percentileOf_eval_true arr v2 hlen,
    jsRound_mono (by linarith),
    percentileOf_eval_false arr v1 hlen, percentileOf_eval_false arr v2 hlen,
    jsRound_mono (by linarith)⟩

/-- Witness for C2: over the sorted population `[1, 2, 3]`, the values
1 ≤ 2 yield percentiles in the stated order for both polarity flags. -/
theorem percentileOf_monotone_witness :
    ∃ p1 p2 q1 q2 : ℤ,
      percentileOf 1 [1, 2, 3] true = some p1 ∧ percentileOf 2 [1, 2, 3] true = some p2 ∧
      p1 ≤ p2 ∧
      percentileOf 1 [1, 2, 3] false = some q1 ∧ percentileOf 2 [1, 2, 3] false = some q2 ∧
      q2 ≤ q1 :=
  percentileOf_monotone [1, 2, 3] (by norm_num) (by simp) 1 2 (by norm_num)

/-- Witness for C10: a throw carrying only nose and wobble data is
statistically invisible — the session stats with it equal the session
stats of the empty session. -/
theorem sessionStats_ignores_speedless_spinless_witness :
    ({ idx := 1, nose := some 3, wobble := some 2 } : Throw).speed = none ∧
    ({ idx := 1, nose := some 3, wobble := some 2 } : Throw).spin = none ∧
    (cleanThrows ([] ++ ({ idx := 1, nose := some 3, wobble := some 2 } : Throw) :: []) =
        cleanThrows ([] ++ []) ∧
      sessionStats id ([] ++ ({ idx := 1, nose := some 3, wobble := some 2 } : Throw) :: []) =
        sessionStats id ([] ++ [])) :=
  ⟨rfl, rfl, sessionStats_ignores_speedless_spinless id [] [] _ rfl rfl⟩

end Throwlytics
